import Mathlib

/-!
Verification of the simulation kernel of `VectorFieldsnPartcFlow.c`
(hash-based particle flow field).

The C program's `float` arithmetic is modelled by exact real arithmetic,
its `int` / `unsigned int` arithmetic by `ℤ` / `ℕ` with explicit
reduction modulo `2^32` where the C semantics wraps.  The particle pool
(a fixed C array scanned linearly) is modelled as a `List` of particle
records; the pseudo-random jitter supplied by `GetRandomValue` is
modelled as an explicit input.
-/

namespace VFlow

open Real

/-- `MAX_PARTICLES` from the source (line 7). -/
def MAX_PARTICLES : ℕ := 1000

/-- `FLOW_STRENGTH` from the source (line 11): `0.8f`. -/
def FLOW_STRENGTH : ℝ := 0.8

/-- `DAMPING_FACTOR` from the source (line 12): `0.995f`. -/
def DAMPING_FACTOR : ℝ := 0.995

/-- `VECTOR_GRID_SIZE` from the source (line 13). -/
def VECTOR_GRID_SIZE : ℕ := 40

/-- Raylib's `Vector2`: a pair of `float`s, modelled over `ℝ`. -/
structure Vector2 where
  x : ℝ
  y : ℝ

/-- Raylib's `Color`: four `unsigned char` channels.  The channels are
modelled as `ℤ` so that the value produced by an out-of-range
`(unsigned char)` cast can be talked about (see `castInRange`). -/
structure Color where
  r : ℤ
  g : ℤ
  b : ℤ
  a : ℤ
deriving DecidableEq

/-- The `Particle` record of the source (lines 17-23). -/
structure Particle where
  position : Vector2
  velocity : Vector2
  color : Color
  life : ℝ
  active : Bool

/-- C's `(int)` cast of a floating value: truncation toward zero. -/
noncomputable def truncR (x : ℝ) : ℤ :=
  if 0 ≤ x then ⌊x⌋ else ⌈x⌉

/-- The quantisation step of `GetVectorFieldForce` (source lines 32-33):
`ix = (int)(x / (VECTOR_GRID_SIZE * 2))`, and likewise for `iy`. -/
noncomputable def cellIndex (x y : ℝ) : ℤ × ℤ :=
  (truncR (x / ((VECTOR_GRID_SIZE : ℝ) * 2)), truncR (y / ((VECTOR_GRID_SIZE : ℝ) * 2)))

/-- The seed of `GetVectorFieldForce` (source line 37):
`(unsigned int)(ix * 13 + iy * 23)` — the `int` product/sum reduced
modulo `2^32` into an unsigned value. -/
def hashSeed (ix iy : ℤ) : ℕ :=
  ((ix * 13 + iy * 23) % (2 ^ 32 : ℤ)).toNat

/-- The hash residue of `GetVectorFieldForce` (source line 41):
`(seed * 99991) % 100000` computed in `unsigned int`, so the product
wraps modulo `2^32` before the reduction modulo `100000`. -/
def hashResidue (seed : ℕ) : ℕ :=
  seed * 99991 % 2 ^ 32 % 100000

/-- The angle of `GetVectorFieldForce` (source line 41):
`(float)((seed * 99991) % 100000) / 100000.0f * 2.0f * PI`. -/
noncomputable def fieldAngle (x y : ℝ) : ℝ :=
  (hashResidue (hashSeed (cellIndex x y).1 (cellIndex x y).2) : ℝ) / 100000 * 2 * π

/-- `GetVectorFieldForce` (source lines 29-51): the unit vector of the
hash angle scaled componentwise by `FLOW_STRENGTH`.  The `time`
parameter is accepted and ignored, exactly as in the source. -/
noncomputable def GetVectorFieldForce (x y time : ℝ) : Vector2 :=
  ⟨FLOW_STRENGTH * Real.cos (fieldAngle x y), FLOW_STRENGTH * Real.sin (fieldAngle x y)⟩

/-- The particle freshly initialised by the emitter (source lines 82-88):
position is the mouse position plus the integer jitter pair returned by
`GetRandomValue(-10, 10)`, zero velocity, full life, bright blue. -/
noncomputable def initParticle (origin : Vector2) (jx jy : ℤ) : Particle :=
  { position := ⟨origin.x + (jx : ℝ), origin.y + (jy : ℝ)⟩
    velocity := ⟨0, 0⟩
    color := ⟨0, 180, 255, 255⟩
    life := 1
    active := true }

/-- One emitter iteration (source lines 80-91): linear scan from slot 0
for the first inactive particle; if one is found it is replaced by a
freshly initialised particle, otherwise the request is dropped. -/
noncomputable def spawnParticle (origin : Vector2) (jx jy : ℤ) :
    List Particle → List Particle
  | [] => []
  | p :: ps =>
      if p.active then p :: spawnParticle origin jx jy ps
      else initParticle origin jx jy :: ps

/-- The emitter (source lines 79-92): one `spawnParticle` per requested
particle, each with its own jitter pair. -/
noncomputable def Spawn (origin : Vector2) :
    List (ℤ × ℤ) → List Particle → List Particle
  | [], ps => ps
  | j :: js, ps => Spawn origin js (spawnParticle origin j.1 j.2 ps)

/-- One per-particle update step (source lines 96-129), executed for each
slot: inactive particles are untouched; an active particle accumulates
the field force scaled by `dt`, is damped, moves by its (undamped-by-dt)
velocity, loses `dt / 10` of life, has its colour recomputed from the
decremented life by `(unsigned char)` truncation casts, and is
deactivated when life has reached `≤ 0`. -/
noncomputable def updateParticle (dt time : ℝ) (p : Particle) : Particle :=
  if p.active then
    { position :=
        ⟨p.position.x +
            (p.velocity.x + (GetVectorFieldForce p.position.x p.position.y time).x * dt) *
              DAMPING_FACTOR,
          p.position.y +
            (p.velocity.y + (GetVectorFieldForce p.position.x p.position.y time).y * dt) *
              DAMPING_FACTOR⟩
      velocity :=
        ⟨(p.velocity.x + (GetVectorFieldForce p.position.x p.position.y time).x * dt) *
            DAMPING_FACTOR,
          (p.velocity.y + (GetVectorFieldForce p.position.x p.position.y time).y * dt) *
            DAMPING_FACTOR⟩
      color :=
        ⟨truncR (0 + 255 * (1 - (p.life - dt / 10))),
          truncR (180 + (255 - 180) * (1 - (p.life - dt / 10))),
          p.color.b,
          truncR (255 * (p.life - dt / 10))⟩
      life := p.life - dt / 10
      active := if p.life - dt / 10 ≤ 0 then false else true }
  else p

/-- The update loop over the whole pool (source lines 96-130). -/
noncomputable def updateAll (dt time : ℝ) (ps : List Particle) : List Particle :=
  ps.map (updateParticle dt time)

/-- The particles actually drawn each frame (source lines 160-164): only
the active ones. -/
def drawnParticles (ps : List Particle) : List Particle :=
  ps.filter fun p => p.active

/-- Number of active particles in the pool (source lines 168-171). -/
def countActive (ps : List Particle) : ℕ :=
  (ps.filter fun p => p.active).length

/-- Number of inactive (free) slots in the pool. -/
def countInactive (ps : List Particle) : ℕ :=
  (ps.filter fun p => !p.active).length

/-- Index of the first inactive slot, following the linear scan of the
emitter (source line 80). -/
def firstInactiveIdx : List Particle → Option ℕ
  | [] => none
  | p :: ps => if p.active then (firstInactiveIdx ps).map (· + 1) else some 0

/-- Whether a real value can be converted to `unsigned char` by C's
float-to-unsigned truncation cast without undefined behaviour: the
truncated value must be representable, i.e. lie in `[0, 255]`. -/
def castInRange (x : ℝ) : Prop :=
  0 ≤ truncR x ∧ truncR x ≤ 255

/-- Modelled from the spec (claim C2's reference definition): quantise by
truncating `x/80` and `y/80` toward zero, form the unsigned 32-bit seed
`ix*13 + iy*23`, and set
`angle = ((seed * 99991 mod 2^32) mod 100000) / 100000 * 2π`. -/
noncomputable def angleRefSpec (x y : ℝ) : ℝ :=
  let ix : ℤ := if 0 ≤ x / 80 then ⌊x / 80⌋ else ⌈x / 80⌉
  let iy : ℤ := if 0 ≤ y / 80 then ⌊y / 80⌋ else ⌈y / 80⌉
  let seed : ℕ := ((ix * 13 + iy * 23) % (2 ^ 32 : ℤ)).toNat
  ((seed * 99991 % 2 ^ 32 % 100000 : ℕ) : ℝ) / 100000 * (2 * π)

/-- A fully alive particle at the origin (sample state). -/
noncomputable def pLive : Particle := ⟨⟨0, 0⟩, ⟨0, 0⟩, ⟨0, 180, 255, 255⟩, 1, true⟩

/-- An inactive pool slot (sample state). -/
noncomputable def pDead : Particle := ⟨⟨0, 0⟩, ⟨0, 0⟩, ⟨0, 180, 255, 255⟩, 0, false⟩

/-- An active particle with little remaining life (sample state). -/
noncomputable def pShort : Particle := ⟨⟨0, 0⟩, ⟨0, 0⟩, ⟨0, 180, 255, 255⟩, 1 / 20, true⟩

/-! ### Helper lemmas -/

/-- Truncation toward zero sends exactly the open interval `(-1, 1)` to `0`. -/
theorem truncR_eq_zero_iff (x : ℝ) : truncR x = 0 ↔ -1 < x ∧ x < 1 := by
  unfold truncR
  by_cases h : 0 ≤ x
  · rw [if_pos h, Int.floor_eq_zero_iff]
    constructor
    · rintro ⟨h1, h2⟩
      exact ⟨by linarith, h2⟩
    · rintro ⟨h1, h2⟩
      exact ⟨h, h2⟩
  · rw [if_neg h, Int.ceil_eq_zero_iff]
    push_neg at h
    constructor
    · rintro ⟨h1, h2⟩
      exact ⟨h1, by linarith⟩
    · rintro ⟨h1, h2⟩
      exact ⟨h1, le_of_lt h⟩

/-- On nonnegative inputs the truncation cast is the floor. -/
theorem truncR_of_nonneg {x : ℝ} (h : 0 ≤ x) : truncR x = ⌊x⌋ :=
  if_pos h

/-- The cell size `VECTOR_GRID_SIZE * 2` evaluates to `80`. -/
theorem cellSize_eq : (VECTOR_GRID_SIZE : ℝ) * 2 = 80 := by
  norm_num [VECTOR_GRID_SIZE]

/-- Every position whose coordinates lie strictly between `-80` and `80`
quantises to the origin cell `(0, 0)`. -/
theorem cellIndex_of_small {x y : ℝ} (hx1 : -80 < x) (hx2 : x < 80)
    (hy1 : -80 < y) (hy2 : y < 80) : cellIndex x y = (0, 0) := by
  unfold cellIndex
  rw [cellSize_eq]
  have hx : truncR (x / 80) = 0 := by
    rw [truncR_eq_zero_iff]
    constructor
    · rw [lt_div_iff₀ (by norm_num : (0:ℝ) < 80)]
      linarith
    · rw [div_lt_one (by norm_num : (0:ℝ) < 80)]
      exact hx2
  have hy : truncR (y / 80) = 0 := by
    rw [truncR_eq_zero_iff]
    constructor
    · rw [lt_div_iff₀ (by norm_num : (0:ℝ) < 80)]
      linarith
    · rw [div_lt_one (by norm_num : (0:ℝ) < 80)]
      exact hy2
  rw [hx, hy]

/-- The hash angle only depends on the grid cell. -/
theorem fieldAngle_congr {x1 y1 x2 y2 : ℝ}
    (h : cellIndex x1 y1 = cellIndex x2 y2) : fieldAngle x1 y1 = fieldAngle x2 y2 := by
  unfold fieldAngle
  rw [h]

/-- The force only depends on the grid cell; the time argument is ignored. -/
theorem force_congr {x1 y1 x2 y2 : ℝ} (t1 t2 : ℝ)
    (h : cellIndex x1 y1 = cellIndex x2 y2) :
    GetVectorFieldForce x1 y1 t1 = GetVectorFieldForce x2 y2 t2 := by
  unfold GetVectorFieldForce
  rw [fieldAngle_congr h]

/-- The cell of `(80, 0)`. -/
theorem cellIndex_80_0 : cellIndex 80 0 = (1, 0) := by
  unfold cellIndex
  rw [cellSize_eq]
  have h1 : truncR ((80 : ℝ) / 80) = 1 := by
    rw [show (80 : ℝ) / 80 = 1 by norm_num, truncR_of_nonneg (by norm_num)]
    exact Int.floor_one
  have h0 : truncR ((0 : ℝ) / 80) = 0 := by
    rw [truncR_eq_zero_iff]
    norm_num
  rw [h1, h0]

/-- The hash angle of the origin cell is `0`. -/
theorem fieldAngle_zero : fieldAngle 0 0 = 0 := by
  unfold fieldAngle
  rw [cellIndex_of_small (by norm_num) (by norm_num) (by norm_num) (by norm_num)]
  norm_num [hashSeed, hashResidue]

/-- The hash angle of the cell of `(80, 0)`. -/
theorem fieldAngle_80_0 : fieldAngle 80 0 = 99883 / 100000 * 2 * π := by
  unfold fieldAngle
  rw [cellIndex_80_0]
  rw [show hashResidue (hashSeed (1, 0).1 (1, 0).2) = 99883 from by decide]
  norm_num

/-- The update step leaves an inactive particle untouched. -/
theorem updateParticle_inactive {p : Particle} (dt time : ℝ) (h : p.active = false) :
    updateParticle dt time p = p := by
  simp [updateParticle, h]

/-- The life field after one update of an active particle. -/
theorem updateParticle_life (p : Particle) (dt time : ℝ) (h : p.active = true) :
    (updateParticle dt time p).life = p.life - dt / 10 := by
  simp [updateParticle, h]

/-- The truncation cast of a value in `[0, 255]` lands in `[0, 255]`. -/
theorem truncR_range_of_bounds {x : ℝ} (h0 : 0 ≤ x) (h1 : x ≤ 255) :
    0 ≤ truncR x ∧ truncR x ≤ 255 := by
  rw [truncR_of_nonneg h0]
  refine ⟨Int.le_floor.mpr (by exact_mod_cast h0), ?_⟩
  have h2 : (⌊x⌋ : ℝ) ≤ 255 := le_trans (Int.floor_le x) h1
  exact_mod_cast h2

/-- The float-to-`unsigned char` cast is free of undefined behaviour
exactly on the real interval `(-1, 256)`. -/
theorem castInRange_iff (x : ℝ) : castInRange x ↔ -1 < x ∧ x < 256 := by
  unfold castInRange truncR
  by_cases h : 0 ≤ x
  · rw [if_pos h]
    constructor
    · rintro ⟨-, h2⟩
      refine ⟨by linarith, ?_⟩
      have h3 : (⌊x⌋ : ℝ) ≤ 255 := by exact_mod_cast h2
      have h4 := Int.lt_floor_add_one x
      linarith
    · rintro ⟨-, h2⟩
      refine ⟨Int.le_floor.mpr (by exact_mod_cast h), ?_⟩
      have h3 : ⌊x⌋ < 256 := Int.floor_lt.mpr (by exact_mod_cast h2)
      omega
  · rw [if_neg h]
    push_neg at h
    constructor
    · rintro ⟨h1, -⟩
      refine ⟨?_, by linarith⟩
      by_contra hc
      push_neg at hc
      have h2 : ⌈x⌉ ≤ -1 := Int.ceil_le.mpr (by exact_mod_cast hc)
      omega
    · rintro ⟨h1, -⟩
      have h2 : ⌈x⌉ ≤ 0 := Int.ceil_le.mpr (by exact_mod_cast le_of_lt h)
      have h3 : (-1 : ℤ) < ⌈x⌉ := Int.lt_ceil.mpr (by exact_mod_cast h1)
      exact ⟨by omega, by omega⟩

/-- Unfolding lemma for `spawnParticle` on a cons cell. -/
theorem spawnParticle_cons (o : Vector2) (jx jy : ℤ) (p : Particle) (ps : List Particle) :
    spawnParticle o jx jy (p :: ps) =
      if p.active then p :: spawnParticle o jx jy ps
      else initParticle o jx jy :: ps := rfl

/-- Unfolding lemma for `Spawn` on a cons cell. -/
theorem Spawn_cons (o : Vector2) (j : ℤ × ℤ) (js : List (ℤ × ℤ)) (ps : List Particle) :
    Spawn o (j :: js) ps = Spawn o js (spawnParticle o j.1 j.2 ps) := rfl

/-- Active count of a cons cell. -/
theorem countActive_cons (p : Particle) (ps : List Particle) :
    countActive (p :: ps) = countActive ps + (if p.active then 1 else 0) := by
  by_cases h : p.active <;> simp [countActive, List.filter_cons, h]

/-- Inactive count of a cons cell. -/
theorem countInactive_cons (p : Particle) (ps : List Particle) :
    countInactive (p :: ps) = countInactive ps + (if p.active then 0 else 1) := by
  by_cases h : p.active <;> simp [countInactive, List.filter_cons, h]

/-- When the pool is full the emitter drops the request. -/
theorem spawnParticle_allActive {ps : List Particle} (o : Vector2) (jx jy : ℤ)
    (h : countInactive ps = 0) : spawnParticle o jx jy ps = ps := by
  induction ps with
  | nil => rfl
  | cons p ps ih =>
    rw [countInactive_cons] at h
    by_cases hp : p.active
    · rw [spawnParticle_cons, if_pos hp, ih (by simpa [hp] using h)]
    · simp [hp] at h

/-- A successful spawn raises the active count by exactly one. -/
theorem countActive_spawnParticle {ps : List Particle} (o : Vector2) (jx jy : ℤ)
    (h : 0 < countInactive ps) :
    countActive (spawnParticle o jx jy ps) = countActive ps + 1 := by
  induction ps with
  | nil => simp [countInactive] at h
  | cons p ps ih =>
    rw [countInactive_cons] at h
    by_cases hp : p.active
    · rw [spawnParticle_cons, if_pos hp, countActive_cons, countActive_cons,
        ih (by simpa [hp] using h)]
      simp [hp]
    · rw [spawnParticle_cons, if_neg hp, countActive_cons, countActive_cons]
      simp [hp, initParticle]

/-- A successful spawn consumes exactly one free slot. -/
theorem countInactive_spawnParticle (o : Vector2) (jx jy : ℤ) (ps : List Particle)
    (h : 0 < countInactive ps) :
    countInactive (spawnParticle o jx jy ps) + 1 = countInactive ps := by
  induction ps with
  | nil => simp [countInactive] at h
  | cons p ps ih =>
    rw [countInactive_cons] at h
    by_cases hp : p.active
    · rw [spawnParticle_cons, if_pos hp, countInactive_cons, countInactive_cons]
      have h2 := ih (by simpa [hp] using h)
      omega
    · rw [spawnParticle_cons, if_neg hp, countInactive_cons, countInactive_cons]
      simp [hp, initParticle]

/-- Spawning `n` particles into a pool with at least `n` free slots adds
exactly `n` active particles. -/
theorem countActive_Spawn (o : Vector2) (js : List (ℤ × ℤ)) :
    ∀ ps : List Particle, js.length ≤ countInactive ps →
      countActive (Spawn o js ps) = countActive ps + js.length := by
  induction js with
  | nil =>
    intro ps _
    simp [Spawn]
  | cons j js ih =>
    intro ps h
    rw [List.length_cons] at h
    have hpos : 0 < countInactive ps := by omega
    have hci := countInactive_spawnParticle o j.1 j.2 ps hpos
    have hle : js.length ≤ countInactive (spawnParticle o j.1 j.2 ps) := by omega
    rw [Spawn_cons, ih _ hle, countActive_spawnParticle o j.1 j.2 hpos, List.length_cons]
    omega

/-- Spawning into a pool with no free slot changes nothing. -/
theorem Spawn_allActive (o : Vector2) (js : List (ℤ × ℤ)) :
    ∀ ps : List Particle, countInactive ps = 0 → Spawn o js ps = ps := by
  induction js with
  | nil =>
    intro ps _
    rfl
  | cons j js ih =>
    intro ps h
    rw [Spawn_cons, spawnParticle_allActive o j.1 j.2 h]
    exact ih ps h

/-- The emitter writes the fresh particle into the first inactive slot of
the linear scan. -/
theorem spawnParticle_set {ps : List Particle} (o : Vector2) (jx jy : ℤ) :
    ∀ k, firstInactiveIdx ps = some k →
      spawnParticle o jx jy ps = ps.set k (initParticle o jx jy) := by
  induction ps with
  | nil =>
    intro k h
    simp [firstInactiveIdx] at h
  | cons p ps ih =>
    intro k h
    by_cases hp : p.active
    · simp only [firstInactiveIdx, hp, if_pos] at h
      rw [Option.map_eq_some'] at h
      obtain ⟨k', hk', hkk⟩ := h
      subst hkk
      rw [spawnParticle_cons, if_pos hp, ih k' hk']
      rfl
    · have hh : firstInactiveIdx (p :: ps) = some 0 := by simp [firstInactiveIdx, hp]
      rw [hh] at h
      injection h with h
      subst h
      rw [spawnParticle_cons, if_neg hp]
      rfl

/-- With no inactive slot in the scan, the emitter drops the request. -/
theorem spawnParticle_of_none {ps : List Particle} (o : Vector2) (jx jy : ℤ)
    (h : firstInactiveIdx ps = none) : spawnParticle o jx jy ps = ps := by
  induction ps with
  | nil => rfl
  | cons p ps ih =>
    by_cases hp : p.active
    · simp only [firstInactiveIdx, hp, if_pos, Option.map_eq_none'] at h
      rw [spawnParticle_cons, if_pos hp, ih h]
    · simp [firstInactiveIdx, hp] at h

/-! ### Claims about the field evaluator -/

/-- Claim C1: the field is deterministic and time-invariant — two
positions in the same grid cell yield identical force vectors at any two
times; concretely, `(0,0)` and `(79,79)` share a force while `(80,0)`
differs from it. -/
theorem field_deterministic_same_cell (x1 y1 x2 y2 t1 t2 s1 s2 u1 u2 : ℝ)
    (h : cellIndex x1 y1 = cellIndex x2 y2) :
    GetVectorFieldForce x1 y1 t1 = GetVectorFieldForce x2 y2 t2 ∧
    GetVectorFieldForce 0 0 s1 = GetVectorFieldForce 79 79 s2 ∧
    GetVectorFieldForce 80 0 u1 ≠ GetVectorFieldForce 0 0 u2 := by
  refine ⟨force_congr t1 t2 h, ?_, ?_⟩
  · apply force_congr
    have e0 : cellIndex 0 0 = (0, 0) :=
      cellIndex_of_small (by norm_num) (by norm_num) (by norm_num) (by norm_num)
    have e79 : cellIndex 79 79 = (0, 0) :=
      cellIndex_of_small (by norm_num) (by norm_num) (by norm_num) (by norm_num)
    rw [e0, e79]
  · intro heq
    simp only [GetVectorFieldForce, Vector2.mk.injEq] at heq
    obtain ⟨h1, -⟩ := heq
    rw [fieldAngle_80_0, fieldAngle_zero, Real.cos_zero, mul_one] at h1
    have hFS : FLOW_STRENGTH ≠ 0 := by norm_num [FLOW_STRENGTH]
    have hcos : Real.cos (99883 / 100000 * 2 * π) = 1 := by
      have := mul_left_cancel₀ hFS (h1.trans (mul_one FLOW_STRENGTH).symm)
      simpa using this
    obtain ⟨n, hn⟩ := (Real.cos_eq_one_iff _).mp hcos
    have h2pi : (2 : ℝ) * π ≠ 0 := by
      have := Real.pi_ne_zero
      positivity
    have hn' : (n : ℝ) * (2 * π) = 99883 / 100000 * (2 * π) := by
      rw [hn]
      ring
    have hval : (n : ℝ) = 99883 / 100000 := mul_right_cancel₀ h2pi hn'
    rcases le_or_lt n 0 with hn0 | hn0
    · have : (n : ℝ) ≤ 0 := by exact_mod_cast hn0
      rw [hval] at this
      norm_num at this
    · have : (1 : ℝ) ≤ (n : ℝ) := by exact_mod_cast hn0
      rw [hval] at this
      norm_num at this

/-- Claim C1 witness: concrete instantiation at positions `(3, 5)` and
`(7, 2)`, both in cell `(0, 0)`. -/
theorem field_deterministic_same_cell_witness :
    GetVectorFieldForce 3 5 0 = GetVectorFieldForce 7 2 9 ∧
    GetVectorFieldForce 0 0 1 = GetVectorFieldForce 79 79 2 ∧
    GetVectorFieldForce 80 0 4 ≠ GetVectorFieldForce 0 0 6 :=
  field_deterministic_same_cell 3 5 7 2 0 9 1 2 4 6
    (by
      rw [cellIndex_of_small (by norm_num) (by norm_num) (by norm_num) (by norm_num),
        cellIndex_of_small (by norm_num) (by norm_num) (by norm_num) (by norm_num)])

/-- Claim C2: the angle used by the force is exactly the reference
definition — truncate-toward-zero quantisation with cell size 80,
unsigned 32-bit seed `ix*13 + iy*23`, and
`angle = ((seed * 99991 mod 2^32) mod 100000) / 100000 * 2π` — and the
force is the cosine/sine pair of that angle scaled by `FLOW_STRENGTH`. -/
theorem field_angle_reference (x y t : ℝ) :
    fieldAngle x y = angleRefSpec x y ∧
    GetVectorFieldForce x y t =
      ⟨FLOW_STRENGTH * Real.cos (angleRefSpec x y),
        FLOW_STRENGTH * Real.sin (angleRefSpec x y)⟩ := by
  have hA : fieldAngle x y = angleRefSpec x y := by
    simp only [fieldAngle, angleRefSpec, cellIndex, truncR, hashSeed, hashResidue, cellSize_eq]
    ring
  exact ⟨hA, by rw [GetVectorFieldForce, hA]⟩

/-- Claim C3: the returned force has Euclidean magnitude exactly
`FLOW_STRENGTH` (in the exact-real model of `float` arithmetic): it is
the unit vector of the hash angle scaled componentwise by `0.8`. -/
theorem field_force_magnitude (x y t : ℝ) :
    Real.sqrt ((GetVectorFieldForce x y t).x ^ 2 + (GetVectorFieldForce x y t).y ^ 2) =
      FLOW_STRENGTH ∧
    (GetVectorFieldForce x y t).x = FLOW_STRENGTH * Real.cos (fieldAngle x y) ∧
    (GetVectorFieldForce x y t).y = FLOW_STRENGTH * Real.sin (fieldAngle x y) := by
  refine ⟨?_, rfl, rfl⟩
  have key : (GetVectorFieldForce x y t).x ^ 2 + (GetVectorFieldForce x y t).y ^ 2 =
      FLOW_STRENGTH ^ 2 := by
    show (FLOW_STRENGTH * Real.cos (fieldAngle x y)) ^ 2 +
        (FLOW_STRENGTH * Real.sin (fieldAngle x y)) ^ 2 = FLOW_STRENGTH ^ 2
    rw [mul_pow, mul_pow, ← mul_add, Real.cos_sq_add_sin_sq, mul_one]
  rw [key]
  exact Real.sqrt_sq (by norm_num [FLOW_STRENGTH])

/-! ### Claims about the particle system -/

/-- Claim C4: one update step of an active particle performs, in order:
`velocity += force(position) * dt` with the force queried at the
pre-update position, then `velocity *= DAMPING_FACTOR` once per step
independent of `dt`, then `position += velocity` with the velocity added
directly (not multiplied by `dt`). -/
theorem update_kinematic_order (p : Particle) (dt time : ℝ) (h : p.active = true) :
    (updateParticle dt time p).velocity.x =
      (p.velocity.x + (GetVectorFieldForce p.position.x p.position.y time).x * dt) *
        DAMPING_FACTOR ∧
    (updateParticle dt time p).velocity.y =
      (p.velocity.y + (GetVectorFieldForce p.position.x p.position.y time).y * dt) *
        DAMPING_FACTOR ∧
    (updateParticle dt time p).position.x =
      p.position.x + (updateParticle dt time p).velocity.x ∧
    (updateParticle dt time p).position.y =
      p.position.y + (updateParticle dt time p).velocity.y := by
  refine ⟨?_, ?_, ?_, ?_⟩ <;> simp [updateParticle, h]

/-- Claim C4 witness: concrete instantiation at `pLive` with `dt = 1`. -/
theorem update_kinematic_order_witness :
    (updateParticle 1 0 pLive).velocity.x =
      (pLive.velocity.x + (GetVectorFieldForce pLive.position.x pLive.position.y 0).x * 1) *
        DAMPING_FACTOR ∧
    (updateParticle 1 0 pLive).velocity.y =
      (pLive.velocity.y + (GetVectorFieldForce pLive.position.x pLive.position.y 0).y * 1) *
        DAMPING_FACTOR ∧
    (updateParticle 1 0 pLive).position.x =
      pLive.position.x + (updateParticle 1 0 pLive).velocity.x ∧
    (updateParticle 1 0 pLive).position.y =
      pLive.position.y + (updateParticle 1 0 pLive).velocity.y :=
  update_kinematic_order pLive 1 0 rfl

/-- Claim C5: spawning `count` particles with at least `count` free slots
adds exactly `count` active particles; each single spawn writes a fresh
particle (life `1`, zero velocity, colour `(0,180,255,255)`, position
`origin + jitter`) into the first inactive slot of the linear scan; a
request with no free slot is dropped, and spawning into a pool with no
free slot leaves it unchanged. -/
theorem spawn_behaviour (o : Vector2) (js : List (ℤ × ℤ)) (ps : List Particle) (jx jy : ℤ) :
    (js.length ≤ countInactive ps →
      countActive (Spawn o js ps) = countActive ps + js.length) ∧
    (∀ k, firstInactiveIdx ps = some k →
      spawnParticle o jx jy ps = ps.set k (initParticle o jx jy)) ∧
    (firstInactiveIdx ps = none → spawnParticle o jx jy ps = ps) ∧
    (countInactive ps = 0 → Spawn o js ps = ps) ∧
    (initParticle o jx jy).life = 1 ∧
    (initParticle o jx jy).velocity = ⟨0, 0⟩ ∧
    (initParticle o jx jy).color = ⟨0, 180, 255, 255⟩ ∧
    (initParticle o jx jy).position = ⟨o.x + (jx : ℝ), o.y + (jy : ℝ)⟩ ∧
    (initParticle o jx jy).active = true :=
  ⟨fun h => countActive_Spawn o js ps h,
    fun k hk => spawnParticle_set o jx jy k hk,
    fun h => spawnParticle_of_none o jx jy h,
    fun h => Spawn_allActive o js ps h,
    rfl, rfl, rfl, rfl, rfl⟩

/-- Claim C5 witness: spawning two particles at `(500, 300)` into a pool
with two free slots adds exactly two active particles. -/
theorem spawn_behaviour_witness :
    countActive (Spawn ⟨500, 300⟩ [(1, 2), (3, 4)] [pDead, pLive, pDead]) =
      countActive [pDead, pLive, pDead] + 2 :=
  (spawn_behaviour ⟨500, 300⟩ [(1, 2), (3, 4)] [pDead, pLive, pDead] 1 2).1 (by decide)

/-- Claim C6: an active particle whose life has fallen to `≤ 0` by the
end of the step is deactivated in that same step; an inactive particle
is left untouched by the update and never drawn. -/
theorem update_deactivation (p : Particle) (dt time : ℝ) (ps : List Particle) :
    (p.active = true → (updateParticle dt time p).life ≤ 0 →
      (updateParticle dt time p).active = false) ∧
    (p.active = false → updateParticle dt time p = p) ∧
    (p.active = false → p ∉ drawnParticles ps) := by
  refine ⟨?_, fun h => updateParticle_inactive dt time h, ?_⟩
  · intro hact hlife
    rw [updateParticle_life p dt time hact] at hlife
    simp [updateParticle, hact, hlife]
  · intro hinact hmem
    have hm := List.mem_filter.mp hmem
    rw [hinact] at hm
    simp at hm

/-- Claim C6 witness: a particle at `1/20` life is deactivated by a
`dt = 1` step, and an inactive particle survives the update unchanged. -/
theorem update_deactivation_witness :
    (updateParticle 1 0 pShort).active = false ∧ updateParticle 1 0 pDead = pDead :=
  ⟨(update_deactivation pShort 1 0 []).1 rfl
      (by
        rw [updateParticle_life pShort 1 0 rfl]
        norm_num [pShort]),
    (update_deactivation pDead 1 0 []).2.1 rfl⟩

/-- Claim C7: one update of an active particle decreases its life by
exactly `dt / 10`. -/
theorem update_life_decrement (p : Particle) (dt time : ℝ) (h : p.active = true)
    (hdt : 0 ≤ dt) : (updateParticle dt time p).life = p.life - dt / 10 := by
  simp [updateParticle, h]

/-- Claim C7 witness: concrete instantiation at `pLive` with `dt = 2`. -/
theorem update_life_decrement_witness :
    (updateParticle 2 0 pLive).life = pLive.life - 2 / 10 :=
  update_life_decrement pLive 2 0 rfl (by norm_num)

/-- Claim C8: the colour written by an update of an active particle is
computed from the post-decrement life: alpha is `trunc (255·life)`
(in `[0,255]` whenever that life is in `[0,1]`), red is
`trunc (255·(1-life))`, green is `trunc (180 + 75·(1-life))`, and the
blue channel is carried over unchanged (it is `255` from spawn on). -/
theorem update_color_formulas (p : Particle) (dt time : ℝ) (o : Vector2) (jx jy : ℤ)
    (h : p.active = true) :
    (updateParticle dt time p).color.a = truncR (255 * (p.life - dt / 10)) ∧
    (updateParticle dt time p).color.r = truncR (0 + 255 * (1 - (p.life - dt / 10))) ∧
    (updateParticle dt time p).color.g =
      truncR (180 + (255 - 180) * (1 - (p.life - dt / 10))) ∧
    (updateParticle dt time p).color.b = p.color.b ∧
    (initParticle o jx jy).color.b = 255 ∧
    (0 ≤ p.life - dt / 10 → p.life - dt / 10 ≤ 1 →
      0 ≤ (updateParticle dt time p).color.a ∧ (updateParticle dt time p).color.a ≤ 255) := by
  refine ⟨by simp [updateParticle, h], by simp [updateParticle, h],
    by simp [updateParticle, h], by simp [updateParticle, h], rfl, ?_⟩
  intro h0 h1
  have ha : (updateParticle dt time p).color.a = truncR (255 * (p.life - dt / 10)) := by
    simp [updateParticle, h]
  rw [ha]
  exact truncR_range_of_bounds (by linarith) (by linarith)

/-- Claim C8 witness: concrete instantiation at `pLive` with `dt = 2`. -/
theorem update_color_formulas_witness :
    (updateParticle 2 0 pLive).color.a = truncR (255 * (pLive.life - 2 / 10)) ∧
    (updateParticle 2 0 pLive).color.r = truncR (0 + 255 * (1 - (pLive.life - 2 / 10))) ∧
    (updateParticle 2 0 pLive).color.g =
      truncR (180 + (255 - 180) * (1 - (pLive.life - 2 / 10))) ∧
    (updateParticle 2 0 pLive).color.b = pLive.color.b ∧
    (initParticle ⟨500, 300⟩ 1 2).color.b = 255 ∧
    (0 ≤ pLive.life - 2 / 10 → pLive.life - 2 / 10 ≤ 1 →
      0 ≤ (updateParticle 2 0 pLive).color.a ∧ (updateParticle 2 0 pLive).color.a ≤ 255) :=
  update_color_formulas pLive 2 0 ⟨500, 300⟩ 1 2 rfl

/-- Claim C9: because the float-to-int cast truncates toward zero, every
position with both coordinates strictly between `-80` and `80` lies in
cell `(0, 0)` — the origin cell is twice as wide and twice as tall as the
others — so the force at `(-79, -79)` equals the force at `(79, 79)`. -/
theorem origin_cell_truncation (x y t1 t2 : ℝ) (hx1 : -80 < x) (hx2 : x < 80)
    (hy1 : -80 < y) (hy2 : y < 80) :
    cellIndex x y = (0, 0) ∧
    GetVectorFieldForce (-79) (-79) t1 = GetVectorFieldForce 79 79 t2 ∧
    (∀ z : ℝ, 80 ≤ z → z < 160 → truncR (z / ((VECTOR_GRID_SIZE : ℝ) * 2)) = 1) := by
  refine ⟨cellIndex_of_small hx1 hx2 hy1 hy2, ?_, ?_⟩
  · apply force_congr
    rw [cellIndex_of_small (by norm_num) (by norm_num) (by norm_num) (by norm_num),
      cellIndex_of_small (by norm_num) (by norm_num) (by norm_num) (by norm_num)]
  · intro z hz1 hz2
    rw [cellSize_eq, truncR_of_nonneg (div_nonneg (by linarith) (by norm_num))]
    rw [Int.floor_eq_iff]
    constructor
    · push_cast
      rw [le_div_iff₀ (by norm_num : (0:ℝ) < 80)]
      linarith
    · push_cast
      rw [div_lt_iff₀ (by norm_num : (0:ℝ) < 80)]
      linarith

/-- Claim C9 witness: concrete instantiation at `(-79, 42)` and at the
sample point `100` of the cell right of the origin cell. -/
theorem origin_cell_truncation_witness :
    cellIndex (-79) 42 = (0, 0) ∧
    GetVectorFieldForce (-79) (-79) 0 = GetVectorFieldForce 79 79 1 ∧
    truncR (100 / ((VECTOR_GRID_SIZE : ℝ) * 2)) = 1 := by
  obtain ⟨h1, h2, h3⟩ :=
    origin_cell_truncation (-79) 42 0 1 (by norm_num) (by norm_num) (by norm_num) (by norm_num)
  exact ⟨h1, h2, h3 100 (by norm_num) (by norm_num)⟩

/-- Claim C10 counterexample: at `life = 1` and `dt = 512/51` the claimed
precondition `dt/10 ≤ life + 1/255` holds with equality, yet the alpha
cast receives exactly `-1.0`, which is outside the `unsigned char`
range — so the claimed safety bound fails at its boundary. -/
theorem update_cast_boundary_cex :
    (512 / 51 : ℝ) / 10 ≤ pLive.life + 1 / 255 ∧
    ¬ castInRange (255 * (updateParticle (512 / 51) 0 pLive).life) := by
  constructor
  · norm_num [pLive]
  · rw [updateParticle_life pLive _ _ rfl, castInRange_iff]
    rintro ⟨h1, -⟩
    norm_num [pLive] at h1

/-- Claim C10 (amended): for an active particle with `life ≤ 1` and
`dt ≥ 0`, the alpha and red truncation casts of the update are both in
the `unsigned char` range iff the post-decrement life exceeds `-1/255`;
they are safe under the strict precondition `dt/10 < life + 1/255`; and
for any active particle some `dt ≥ 0` drives the alpha cast out of
range. -/
theorem update_cast_range (p : Particle) (dt time : ℝ) (hact : p.active = true)
    (hl : p.life ≤ 1) (hdt : 0 ≤ dt) :
    ((castInRange (255 * (updateParticle dt time p).life) ∧
        castInRange (255 * (1 - (updateParticle dt time p).life))) ↔
      -(1 / 255) < p.life - dt / 10) ∧
    (dt / 10 < p.life + 1 / 255 →
      castInRange (255 * (updateParticle dt time p).life) ∧
      castInRange (255 * (1 - (updateParticle dt time p).life))) ∧
    (∃ d : ℝ, 0 ≤ d ∧ ¬ castInRange (255 * (p.life - d / 10))) := by
  rw [updateParticle_life p dt time hact]
  have hdt10 : 0 ≤ dt / 10 := by positivity
  have hL1 : p.life - dt / 10 ≤ 1 := by linarith
  refine ⟨?_, ?_, ?_⟩
  · rw [castInRange_iff, castInRange_iff]
    constructor
    · rintro ⟨⟨ha1, -⟩, -⟩
      linarith
    · intro hgt
      refine ⟨⟨by linarith, by linarith⟩, by linarith, by linarith⟩
  · intro hpre
    rw [castInRange_iff, castInRange_iff]
    have hgt : -(1 / 255) < p.life - dt / 10 := by linarith
    refine ⟨⟨by linarith, by linarith⟩, by linarith, by linarith⟩
  · rcases le_or_lt (10 * p.life + 10) 0 with hc | hc
    · refine ⟨0, le_refl 0, ?_⟩
      rw [castInRange_iff]
      rintro ⟨h1, -⟩
      have hx : p.life ≤ -1 := by linarith
      have hz : 255 * (p.life - 0 / 10) ≤ -255 := by
        rw [zero_div, sub_zero]
        linarith
      linarith
    · refine ⟨10 * p.life + 10, le_of_lt hc, ?_⟩
      rw [castInRange_iff]
      rintro ⟨h1, -⟩
      have hz : p.life - (10 * p.life + 10) / 10 = -1 := by ring
      rw [hz] at h1
      norm_num at h1

/-- Claim C10 (amended) witness: concrete instantiation at `pLive` with
`dt = 0`. -/
theorem update_cast_range_witness :
    ∃ d : ℝ, 0 ≤ d ∧ ¬ castInRange (255 * (pLive.life - d / 10)) :=
  (update_cast_range pLive 0 0 rfl (by norm_num [pLive]) le_rfl).2.2

end VFlow
